import Mathlib

/-!
Verification of the documentation analyzer and patch engine of
`fake-bpy-module` (`src/fake_bpy_module/analyzer.py`).

Strings from the Python code are modelled as `List Char`; fallible code
(Python exceptions) is modelled with `Except String`.  Entity classes from
`common.py` (not part of the analyzed sources) are modelled from the spec as
plain records, marked `Modelled from the spec:` in their doc comments.
-/

namespace FakeBpy

/-- The ASCII characters matched by Python's regex class `\s`
(the analyzer only ever feeds it documentation text). -/
def isSpaceChar (c : Char) : Bool :=
  c = ' ' || c = '\t' || c = '\n' || c = '\r' || c = '\x0b' || c = '\x0c'

/-- Helper of `collapseSpaces`; the flag records being inside a whitespace
run whose first character was already emitted as `' '`. -/
def collapseAux : List Char → Bool → List Char
  | [], _ => []
  | c :: rest, inRun =>
    if isSpaceChar c then
      if inRun then collapseAux rest true else ' ' :: collapseAux rest true
    else c :: collapseAux rest false

/-- `re.sub(r'\s+', ' ', s)`: every maximal run of whitespace becomes one space. -/
def collapseSpaces (s : List Char) : List Char := collapseAux s false

/-- The predicate kept by `re.sub(" ", "", p)`: everything except a space. -/
def notSpace (c : Char) : Bool := c ≠ ' '

/-- Net parenthesis contribution of one character. -/
def parenStep (c : Char) : Int := if c = '(' then 1 else if c = ')' then -1 else 0

/-- `p.count("(") - p.count(")")` over the integers. -/
def parenDelta (p : List Char) : Int :=
  (p.count '(' : Int) - (p.count ')' : Int)

/-- Python `str.split(",")`: cut at every comma, keeping empty pieces. -/
def splitComma : List Char → List (List Char)
  | [] => [[]]
  | c :: rest =>
    let r := splitComma rest
    if c = ',' then [] :: r else (c :: r.headD []) :: r.tail

/-- Python `",".join(xs)`. -/
def joinComma : List (List Char) → List Char
  | [] => []
  | [p] => p
  | p :: q :: rest => p ++ ',' :: joinComma (q :: rest)

/-- Character-level balance check: the running parenthesis depth never goes
negative and the starting depth plus the total delta is zero. -/
def balancedAux : List Char → Int → Bool
  | [], d => decide (d = 0)
  | c :: rest, d =>
    let d' := d + parenStep c
    decide (0 ≤ d') && balancedAux rest d'

/-- A string has balanced parentheses in the usual character-level sense. -/
def charBalanced (s : List Char) : Bool := balancedAux s 0

/-- Error text of `FunctionAnalyzer._parse_parameter_body_text` when the level
drops below zero. -/
def parenNegMsg (level : Int) (text : List Char) (filename : String) : String :=
  "Parenthese Level must be >= 0, but " ++ toString level ++
    ". (text: " ++ String.mk text ++ ", filename: " ++ filename ++ ")"

/-- Error text of `FunctionAnalyzer._parse_parameter_body_text` when the level
is nonzero at the end of the input. -/
def parenEndMsg (level : Int) (text : List Char) (filename : String) : String :=
  "Parenthese Level must be == 0, but " ++ toString level ++
    ". (text: " ++ String.mk text ++ ", filename: " ++ filename ++ ")"

/-- The fragment loop of `FunctionAnalyzer._parse_parameter_body_text`:
walk the naive comma-split fragments, re-joining fragments while the
parenthesis level is positive and flushing a token each time it returns
to zero. -/
def parseFragments (filename : String) (text : List Char) :
    List (List Char) → Int → List Char → List (List Char) →
    Except String (List (List Char))
  | [], level, _next, acc =>
    if level ≠ 0 then .error (parenEndMsg level text filename) else .ok acc
  | p :: rest, level, next, acc =>
    let level' := level + parenDelta p
    if level' < 0 then .error (parenNegMsg level' text filename)
    else
      let next' := next ++ p ++ [',']
      if level' = 0 then
        parseFragments filename text rest 0 [] (acc ++ [next'.dropLast])
      else
        parseFragments filename text rest level' next' acc

/-- `FunctionAnalyzer._parse_parameter_body_text`: strip spaces from each
naive comma fragment, then run the level-tracking re-join loop. -/
def parseParameterBodyText (filename : String) (text : List Char) :
    Except String (List (List Char)) :=
  let sp := (splitComma text).map (fun p => p.filter notSpace)
  parseFragments filename text sp 0 [] []

/-- Fragment-level balance: the per-fragment running level stays nonnegative
and ends at zero.  This is the exact success condition of the loop. -/
def fragOk : List (List Char) → Int → Bool
  | [], level => decide (level = 0)
  | p :: rest, level =>
    let level' := level + parenDelta p
    decide (0 ≤ level') && fragOk rest level'

def exIsOk {α : Type} : Except String α → Bool
  | .ok _ => true
  | .error _ => false

theorem exIsOk_iff {α : Type} (e : Except String α) :
    exIsOk e = true ↔ ∃ a, e = .ok a := by
  cases e <;> simp [exIsOk]

theorem parenDelta_nil : parenDelta [] = 0 := by
  simp [parenDelta]

theorem parenDelta_cons (c : Char) (p : List Char) :
    parenDelta (c :: p) = parenStep c + parenDelta p := by
  simp only [parenDelta, parenStep, List.count_cons]
  by_cases h1 : c = '('
  · subst h1
    simp only [beq_iff_eq, if_true, reduceIte]
    push_cast
    omega
  · by_cases h2 : c = ')'
    · subst h2
      simp only [beq_iff_eq, h1, if_false, reduceIte, if_true]
      push_cast
      omega
    · simp only [beq_iff_eq, h1, h2, if_false]
      push_cast
      omega

theorem parenDelta_append (p q : List Char) :
    parenDelta (p ++ q) = parenDelta p + parenDelta q := by
  simp only [parenDelta, List.count_append]
  push_cast
  omega

theorem parenDelta_filter_space (p : List Char) :
    parenDelta (p.filter notSpace) = parenDelta p := by
  unfold parenDelta
  rw [List.count_filter (by decide), List.count_filter (by decide)]

/-- The naive comma fragments with spaces stripped, as fed to the loop. -/
def fragmentsOf (text : List Char) : List (List Char) :=
  (splitComma text).map (fun p => p.filter notSpace)

theorem parseParameterBodyText_def (f : String) (text : List Char) :
    parseParameterBodyText f text = parseFragments f text (fragmentsOf text) 0 [] [] := rfl

theorem splitComma_ne_nil (s : List Char) : splitComma s ≠ [] := by
  cases s with
  | nil => simp [splitComma]
  | cons c rest =>
    simp only [splitComma]
    by_cases hc : c = ',' <;> simp [hc]

theorem joinComma_cons_cons (p q : List Char) (t : List (List Char)) :
    joinComma (p :: q :: t) = p ++ ',' :: joinComma (q :: t) := rfl

theorem joinComma_cons_head (c : Char) (h : List Char) (t : List (List Char)) :
    joinComma ((c :: h) :: t) = c :: joinComma (h :: t) := by
  cases t with
  | nil => rfl
  | cons q tt => rfl

theorem joinComma_splitComma (s : List Char) : joinComma (splitComma s) = s := by
  induction s with
  | nil => rfl
  | cons c rest ih =>
    simp only [splitComma]
    cases h : splitComma rest with
    | nil => exact absurd h (splitComma_ne_nil rest)
    | cons hh tt =>
      rw [h] at ih
      by_cases hc : c = ','
      · subst hc
        rw [if_pos rfl, joinComma_cons_cons]
        simp only [List.nil_append]
        rw [ih]
      · rw [if_neg hc]
        simp only [List.headD_cons, List.tail_cons]
        rw [joinComma_cons_head, ih]

theorem joinComma_map_filter (xs : List (List Char)) :
    joinComma (xs.map (fun p => p.filter notSpace)) = (joinComma xs).filter notSpace := by
  induction xs with
  | nil => rfl
  | cons p t ih =>
    cases t with
    | nil => rfl
    | cons q tt =>
      simp only [List.map_cons] at ih ⊢
      rw [joinComma_cons_cons, joinComma_cons_cons, ih]
      have hcomma : notSpace ',' = true := by decide
      simp [List.filter_append, List.filter_cons, hcomma]

/-- Concatenation of the list pieces, each followed by a comma. -/
def flatC (xs : List (List Char)) : List Char := (xs.map (fun p => p ++ [','])).flatten

theorem flatC_cons (p : List Char) (t : List (List Char)) :
    flatC (p :: t) = (p ++ [',']) ++ flatC t := rfl

theorem flatC_append (a b : List (List Char)) :
    flatC (a ++ b) = flatC a ++ flatC b := by
  simp [flatC]

theorem flatC_eq_joinComma (xs : List (List Char)) (h : xs ≠ []) :
    flatC xs = joinComma xs ++ [','] := by
  induction xs with
  | nil => exact absurd rfl h
  | cons p t ih =>
    cases t with
    | nil => simp [flatC, joinComma]
    | cons q tt =>
      rw [flatC_cons, joinComma_cons_cons, ih (by simp)]
      simp [List.append_assoc]

theorem flatC_ne_nil (p : List Char) (t : List (List Char)) :
    flatC (p :: t) ≠ [] := by
  rw [flatC_cons]
  simp

theorem parseFragments_isOk (f : String) (t : List Char) :
    ∀ (sp : List (List Char)) (level : Int) (next : List Char) (acc : List (List Char)),
      exIsOk (parseFragments f t sp level next acc) = fragOk sp level := by
  intro sp
  induction sp with
  | nil =>
    intro level next acc
    simp only [parseFragments, fragOk]
    by_cases h : level = 0 <;> simp [h, exIsOk]
  | cons p rest ih =>
    intro level next acc
    simp only [parseFragments, fragOk]
    by_cases hneg : level + parenDelta p < 0
    · rw [if_pos hneg]
      have : ¬ ((0 : Int) ≤ level + parenDelta p) := by omega
      simp [exIsOk, this]
    · rw [if_neg hneg]
      have h0 : (0 : Int) ≤ level + parenDelta p := by omega
      by_cases hz : level + parenDelta p = 0
      · rw [if_pos hz, ih]
        simp [h0, hz]
      · rw [if_neg hz, ih]
        simp [h0]

theorem parseFragments_flat (f : String) (t : List Char) :
    ∀ (sp : List (List Char)) (level : Int) (next : List Char) (acc out : List (List Char)),
      (level = 0 → next = []) →
      parseFragments f t sp level next acc = .ok out →
      flatC out = flatC acc ++ next ++ flatC sp := by
  intro sp
  induction sp with
  | nil =>
    intro level next acc out hinv h
    simp only [parseFragments] at h
    by_cases hl : level = 0
    · rw [if_neg (by simpa using hl)] at h
      cases h
      rw [hinv hl]
      simp [flatC]
    · rw [if_pos (by simpa using hl)] at h
      cases h
  | cons p rest ih =>
    intro level next acc out hinv h
    simp only [parseFragments] at h
    by_cases hneg : level + parenDelta p < 0
    · rw [if_pos hneg] at h
      cases h
    · rw [if_neg hneg] at h
      by_cases hz : level + parenDelta p = 0
      · rw [if_pos hz] at h
        have hrec := ih 0 [] (acc ++ [(next ++ p ++ [',']).dropLast]) out (fun _ => rfl) h
        have hdl : (next ++ p ++ [',']).dropLast = next ++ p := List.dropLast_concat ..
        rw [hrec, hdl, flatC_append, flatC_cons]
        simp [flatC_cons, flatC, List.append_assoc]
      · rw [if_neg hz] at h
        have hrec := ih (level + parenDelta p) (next ++ p ++ [',']) acc out
          (fun hh => absurd hh hz) h
        rw [hrec, flatC_cons]
        simp [List.append_assoc]

theorem parseFragments_tokens (f : String) (t : List Char) :
    ∀ (sp : List (List Char)) (level : Int) (next : List Char) (acc out : List (List Char)),
      level = parenDelta next →
      (∀ tk ∈ acc, parenDelta tk = 0) →
      parseFragments f t sp level next acc = .ok out →
      ∀ tk ∈ out, parenDelta tk = 0 := by
  intro sp
  induction sp with
  | nil =>
    intro level next acc out _hlev hacc h
    simp only [parseFragments] at h
    by_cases hl : level = 0
    · rw [if_neg (by simpa using hl)] at h
      cases h
      exact hacc
    · rw [if_pos (by simpa using hl)] at h
      cases h
  | cons p rest ih =>
    intro level next acc out hlev hacc h
    simp only [parseFragments] at h
    by_cases hneg : level + parenDelta p < 0
    · rw [if_pos hneg] at h
      cases h
    · rw [if_neg hneg] at h
      by_cases hz : level + parenDelta p = 0
      · rw [if_pos hz] at h
        refine ih 0 [] _ out (by simp [parenDelta_nil]) ?_ h
        intro tk htk
        rcases List.mem_append.mp htk with hmem | hmem
        · exact hacc tk hmem
        · have hdl : (next ++ p ++ [',']).dropLast = next ++ p := List.dropLast_concat ..
          simp only [List.mem_singleton] at hmem
          rw [hmem, hdl, parenDelta_append]
          omega
      · rw [if_neg hz] at h
        refine ih (level + parenDelta p) (next ++ p ++ [',']) acc out ?_ hacc h
        have hc : parenDelta [','] = 0 := by decide
        rw [parenDelta_append, parenDelta_append, hc, hlev]
        omega

theorem fragOk_map_filter (sp : List (List Char)) :
    ∀ level : Int, fragOk (sp.map (fun p => p.filter notSpace)) level = fragOk sp level := by
  induction sp with
  | nil => intro level; rfl
  | cons p rest ih =>
    intro level
    simp only [List.map_cons, fragOk, parenDelta_filter_space, ih]

theorem balancedAux_append (p : List Char) :
    ∀ (s : List Char) (d : Int), 0 ≤ d → balancedAux (p ++ s) d = true →
      0 ≤ d + parenDelta p ∧ balancedAux s (d + parenDelta p) = true := by
  induction p with
  | nil =>
    intro s d hd h
    constructor
    · rw [parenDelta_nil]; omega
    · rw [parenDelta_nil, Int.add_zero]
      simpa using h
  | cons c p' ih =>
    intro s d hd h
    simp only [List.cons_append, balancedAux, Bool.and_eq_true, decide_eq_true_eq] at h
    obtain ⟨h1, h2⟩ := h
    have h3 := ih s (d + parenStep c) h1 h2
    rw [parenDelta_cons]
    constructor
    · have := h3.1
      omega
    · have heq : d + (parenStep c + parenDelta p') = d + parenStep c + parenDelta p' := by
        omega
      rw [heq]
      exact h3.2

theorem charBalanced_fragOk (sp : List (List Char)) :
    ∀ d : Int, 0 ≤ d → balancedAux (joinComma sp) d = true → fragOk sp d = true := by
  induction sp with
  | nil =>
    intro d _hd h
    simpa [joinComma, balancedAux, fragOk] using h
  | cons p rest ih =>
    cases rest with
    | nil =>
      intro d hd h
      have hap := balancedAux_append p [] d hd (by simpa [joinComma] using h)
      obtain ⟨h1, h2⟩ := hap
      simp only [balancedAux, decide_eq_true_eq] at h2
      simp [fragOk, h1, h2]
    | cons q tt =>
      intro d hd h
      rw [joinComma_cons_cons] at h
      have hap := balancedAux_append p (',' :: joinComma (q :: tt)) d hd h
      obtain ⟨h1, h2⟩ := hap
      simp only [balancedAux, Bool.and_eq_true, decide_eq_true_eq] at h2
      have hstep : parenStep ',' = 0 := by decide
      rw [hstep, Int.add_zero] at h2
      have hrest := ih (d + parenDelta p) h1 h2.2
      show (decide (0 ≤ d + parenDelta p) && fragOk (q :: tt) (d + parenDelta p)) = true
      simp only [Bool.and_eq_true, decide_eq_true_eq]
      exact ⟨h1, hrest⟩

theorem parseParameterBodyText_ok_spec (f : String) (text : List Char)
    (toks : List (List Char)) (h : parseParameterBodyText f text = .ok toks) :
    joinComma toks = text.filter notSpace ∧
      ∀ tk ∈ toks, tk.count '(' = tk.count ')' := by
  rw [parseParameterBodyText_def] at h
  constructor
  · have hflat := parseFragments_flat f text (fragmentsOf text) 0 [] [] toks
      (fun _ => rfl) h
    simp only [flatC, List.map_nil, List.flatten_nil, List.nil_append] at hflat
    have hne : fragmentsOf text ≠ [] := by
      unfold fragmentsOf
      simp [splitComma_ne_nil text]
    have htoksne : toks ≠ [] := by
      intro hcon
      subst hcon
      cases hfe : fragmentsOf text with
      | nil => exact hne hfe
      | cons a b =>
        rw [hfe] at hflat
        exact flatC_ne_nil a b (by simpa [flatC] using hflat.symm)
    have h1 : joinComma toks ++ [','] = joinComma (fragmentsOf text) ++ [','] := by
      rw [← flatC_eq_joinComma toks htoksne, ← flatC_eq_joinComma _ hne]
      simpa [flatC] using hflat
    have h2 := List.append_cancel_right h1
    rw [h2]
    unfold fragmentsOf
    rw [joinComma_map_filter, joinComma_splitComma]
  · intro tk htk
    have := parseFragments_tokens f text (fragmentsOf text) 0 [] [] toks
      (by simp [parenDelta_nil]) (by intro tk h; cases h) h tk htk
    unfold parenDelta at this
    omega

theorem parseParameterBodyText_balanced_ok (f : String) (text : List Char)
    (h : charBalanced text = true) :
    ∃ toks, parseParameterBodyText f text = .ok toks := by
  rw [← exIsOk_iff, parseParameterBodyText_def, parseFragments_isOk]
  rw [show fragmentsOf text = (splitComma text).map (fun p => p.filter notSpace) from rfl]
  rw [fragOk_map_filter]
  refine charBalanced_fragOk (splitComma text) 0 (le_refl 0) ?_
  rw [joinComma_splitComma]
  exact h

/-- **C2 (amended).**  For every input whose parentheses are balanced in the
character-level sense, `_parse_parameter_body_text` succeeds, the returned
tokens joined with commas equal the input with all *space characters*
(U+0020) removed — not with all whitespace removed, see the counterexample —
and every token holds equally many `(` and `)`; in particular
`"x, y=1, cb=(lambda: None), z"` tokenizes to
`["x", "y=1", "cb=(lambda:None)", "z"]`. -/
theorem c2_tokenization_joins_and_balances :
    (∀ (f : String) (text : List Char), charBalanced text = true →
      ∃ toks, parseParameterBodyText f text = .ok toks ∧
        joinComma toks = text.filter notSpace ∧
        ∀ tk ∈ toks, tk.count '(' = tk.count ')') ∧
    parseParameterBodyText "doc.xml" ("x, y=1, cb=(lambda: None), z".toList) =
      .ok ["x".toList, "y=1".toList, "cb=(lambda:None)".toList, "z".toList] := by
  constructor
  · intro f text h
    obtain ⟨toks, hok⟩ := parseParameterBodyText_balanced_ok f text h
    exact ⟨toks, hok, parseParameterBodyText_ok_spec f text toks hok⟩
  · rfl

/-- **C2, witness** for the universally quantified part: a concrete balanced
input on which the theorem's conclusions evaluate. -/
theorem c2_tokenization_joins_and_balances_witness :
    ∃ toks, parseParameterBodyText "doc.xml" ("f(a, b), g".toList) = .ok toks ∧
      joinComma toks = ("f(a, b), g".toList).filter notSpace ∧
      ∀ tk ∈ toks, tk.count '(' = tk.count ')' :=
  c2_tokenization_joins_and_balances.1 "doc.xml" ("f(a, b), g".toList) (by decide)

/-- **C2, counterexample** to the claim as stated: the code removes only the
space character, not all whitespace, so on the balanced input `"a\tb"` the
tokens joined with commas differ from the input with all whitespace removed. -/
theorem c2_whitespace_counterexample :
    charBalanced ("a\tb".toList) = true ∧
    parseParameterBodyText "doc.xml" ("a\tb".toList) = .ok ["a\tb".toList] ∧
    joinComma ["a\tb".toList] ≠ ("a\tb".toList).filter (fun c => !isSpaceChar c) := by
  refine ⟨by decide, rfl, by decide⟩

/-- **C3 (amended).**  `_parse_parameter_body_text` raises exactly when the
*fragment-level* parenthesis depth (recomputed per naive comma fragment, not
per character) goes negative or ends nonzero; character-level balanced input
never raises; the spec's unbalanced examples `"x, y("` and `"x), y"` raise. -/
theorem c3_raises_iff_fragment_unbalanced :
    (∀ (f : String) (text : List Char),
      exIsOk (parseParameterBodyText f text) = fragOk (fragmentsOf text) 0) ∧
    (∀ (f : String) (text : List Char), charBalanced text = true →
      exIsOk (parseParameterBodyText f text) = true) ∧
    (∃ msg, parseParameterBodyText "doc.xml" ("x, y(".toList) = .error msg) ∧
    (∃ msg, parseParameterBodyText "doc.xml" ("x), y".toList) = .error msg) := by
  refine ⟨?_, ?_, ⟨_, rfl⟩, ⟨_, rfl⟩⟩
  · intro f text
    rw [parseParameterBodyText_def, parseFragments_isOk]
  · intro f text h
    obtain ⟨toks, hok⟩ := parseParameterBodyText_balanced_ok f text h
    rw [hok]
    rfl

/-- **C3, witness** for the hypothesis-bearing part: a concrete balanced
input does not raise. -/
theorem c3_raises_iff_fragment_unbalanced_witness :
    exIsOk (parseParameterBodyText "doc.xml" ("x, y=1".toList)) = true :=
  c3_raises_iff_fragment_unbalanced.2.1 "doc.xml" ("x, y=1".toList) (by decide)

/-- **C3, counterexample** to the claim as stated: `")("` is unbalanced in the
character-level sense (its running depth goes negative), yet the code succeeds
and returns the token unchanged, because the depth is only recomputed per
comma fragment. -/
theorem c3_counterexample :
    parseParameterBodyText "doc.xml" (")(".toList) = .ok [")(".toList] ∧
    charBalanced (")(".toList) = false := ⟨rfl, by decide⟩

/-! ### The XML documentation tree -/

/-- A node of the documentation tree (`xml.etree.ElementTree.Element`):
tag, attributes, leading text, children in document order, trailing tail
text.  Text is carried as `List Char`. -/
inductive Elem where
  | mk (tag : String) (attrs : List (String × List Char)) (text : Option (List Char))
      (children : List Elem) (tailTxt : Option (List Char))

def Elem.tag : Elem → String
  | .mk t _ _ _ _ => t

def Elem.attrs : Elem → List (String × List Char)
  | .mk _ a _ _ _ => a

def Elem.text : Elem → Option (List Char)
  | .mk _ _ t _ _ => t

def Elem.children : Elem → List Elem
  | .mk _ _ _ cs _ => cs

def Elem.tailTxt : Elem → Option (List Char)
  | .mk _ _ _ _ t => t

/-- Python `elm.get(key)`: attribute lookup, `None` when absent. -/
def Elem.get (e : Elem) (k : String) : Option (List Char) :=
  (e.attrs.find? (fun a => a.1 = k)).map (fun a => a.2)

/-- Python `elm.find(tag)`: first direct child with the tag, `None` when absent. -/
def Elem.findChild (e : Elem) (t : String) : Option Elem :=
  e.children.find? (fun c => c.tag = t)

mutual

/-- `textify`: own text, each child flattened recursively, own tail. -/
def textify : Elem → List Char
  | .mk _ _ t children tl => (t.getD []) ++ textifyList children ++ (tl.getD [])

def textifyList : List Elem → List Char
  | [] => []
  | c :: rest => textify c ++ textifyList rest

end

mutual

/-- Python `elm.iter(tag)`: the element itself and all descendants with the
tag, in document order. -/
def iterTag (t : String) : Elem → List Elem
  | e@(.mk tg _ _ children _) =>
    (if tg = t then [e] else []) ++ iterTagList t children

def iterTagList (t : String) : List Elem → List Elem
  | [] => []
  | c :: rest => iterTag t c ++ iterTagList t rest

end

/-! ### The regex patterns of `_get_param_paragraph` -/

/-- One item of the fixed regular patterns used by `_get_param_paragraph`:
a literal character, a captured greedy `[a-zA-Z0-9_]+`, or a captured
greedy `.+`. -/
inductive RItem where
  | lit (c : Char)
  | wordPlus
  | anyPlus

/-- Python regex class `[a-zA-Z0-9_]`. -/
def isWordChar (c : Char) : Bool := c.isAlpha || c.isDigit || c = '_'

/-- Python regex `.` without DOTALL: anything but a newline. -/
def isDotChar (c : Char) : Bool := c ≠ '\n'

/-- Candidate lengths for a greedy `X+`: longest first, down to 1, all
within the maximal prefix of characters accepted by `ok`. -/
def takeCands (ok : Char → Bool) (s : List Char) : List Nat :=
  (List.range (s.takeWhile ok).length).reverse.map (fun k => k + 1)

def firstSome {α β : Type} (f : α → Option β) : List α → Option β
  | [] => none
  | a :: rest =>
    match f a with
    | some b => some b
    | none => firstSome f rest

/-- Backtracking matcher anchored at the start of `s`: returns the captures
of the quantified items and the unconsumed suffix.  Greedy quantifiers try
the longest candidate first; later choice points are exhausted before
earlier ones backtrack, exactly as in Python's engine. -/
def matchHere : List RItem → List Char → Option (List (List Char) × List Char)
  | [], s => some ([], s)
  | .lit c :: ps, s =>
    match s with
    | [] => none
    | x :: rest => if x = c then matchHere ps rest else none
  | .wordPlus :: ps, s =>
    firstSome (fun k =>
      (matchHere ps (s.drop k)).map (fun r => (s.take k :: r.1, r.2)))
      (takeCands isWordChar s)
  | .anyPlus :: ps, s =>
    firstSome (fun k =>
      (matchHere ps (s.drop k)).map (fun r => (s.take k :: r.1, r.2)))
      (takeCands isDotChar s)

/-- `re.findall(p, s)[0]`: leftmost match; scan start positions left to
right, backtracking greedily at each. -/
def reFirstMatch (ps : List RItem) : List Char → Option (List (List Char))
  | [] => (matchHere ps []).map (fun r => r.1)
  | c :: rest =>
    match matchHere ps (c :: rest) with
    | some r => some r.1
    | none => reFirstMatch ps rest

/-- `"([a-zA-Z0-9_]+) \((.+)\) – (.+)"` (the dash is U+2013). -/
def patternNameTypeDesc : List RItem :=
  [.wordPlus, .lit ' ', .lit '(', .anyPlus, .lit ')', .lit ' ', .lit '–', .lit ' ', .anyPlus]

/-- `"([a-zA-Z0-9_]+) – (.+)"`. -/
def patternNameDesc : List RItem :=
  [.wordPlus, .lit ' ', .lit '–', .lit ' ', .anyPlus]

/-- `"([a-zA-Z0-9_]+) \((.+)\) – "`. -/
def patternNameType : List RItem :=
  [.wordPlus, .lit ' ', .lit '(', .anyPlus, .lit ')', .lit ' ', .lit '–', .lit ' ']

/-! ### Entity records (from `common.py`, modelled from the spec) -/

/-- Modelled from the spec: `IntermidiateDataType` (`common.py` is not under
src/) is an immutable normalized type reference, stored and compared as the
type text it was constructed from. -/
structure IntermidiateDataType where
  dtype : List Char
deriving DecidableEq, Repr

/-- Modelled from the spec: `ParameterDetailInfo` (`common.py`): parameter
name, optional data type, optional description. -/
structure ParameterDetailInfo where
  name : Option (List Char) := none
  data_type : Option IntermidiateDataType := none
  description : Option (List Char) := none
deriving DecidableEq, Repr

/-- Modelled from the spec: `ReturnInfo` (`common.py`): optional data type,
optional description. -/
structure ReturnInfo where
  data_type : Option IntermidiateDataType := none
  description : Option (List Char) := none
deriving DecidableEq, Repr

/-- Modelled from the spec: `VariableInfo` (`common.py`): discriminant
("constant" or "attribute"), name, module, owning class, description and
data type, the last five nullable. -/
structure VariableInfo where
  type_ : String
  name : Option (List Char) := none
  module : Option (List Char) := none
  class_ : Option (List Char) := none
  description : Option (List Char) := none
  data_type : Option IntermidiateDataType := none
deriving DecidableEq, Repr

/-- Modelled from the spec: `FunctionInfo` (`common.py`): discriminant
("function" or "method"), name, module, owning class, raw parameter tokens,
parameter details, return record, description. -/
structure FunctionInfo where
  type_ : String
  name : Option (List Char) := none
  module : Option (List Char) := none
  class_ : Option (List Char) := none
  parameters : List (List Char) := []
  parameter_details : List ParameterDetailInfo := []
  return_ : Option ReturnInfo := none
  description : Option (List Char) := none
deriving DecidableEq, Repr

/-- Modelled from the spec: `ClassInfo` (`common.py`): name, module,
description, base classes, methods, attributes. -/
structure ClassInfo where
  name : Option (List Char) := none
  module : Option (List Char) := none
  description : Option (List Char) := none
  base_classes : List IntermidiateDataType := []
  methods : List FunctionInfo := []
  attributes : List VariableInfo := []
deriving DecidableEq, Repr

/-- An extracted entity (the `Info` capability of the spec). -/
inductive Info where
  | var (v : VariableInfo)
  | func (f : FunctionInfo)
  | cls (c : ClassInfo)
deriving DecidableEq, Repr

/-! ### `FunctionAnalyzer._get_param_paragraph` -/

/-- Helper of `stripSpacesAfterParen`; the flag records that the previous
emitted character was `(`, whose following whitespace is dropped. -/
def stripAux : List Char → Bool → List Char
  | [], _ => []
  | c :: rest, dropMode =>
    if dropMode && isSpaceChar c then stripAux rest true
    else c :: stripAux rest (c = '(')

/-- `re.sub(r'\(\s+', '(', s)`: whitespace directly after `(` is removed. -/
def stripSpacesAfterParen (s : List Char) : List Char := stripAux s false

/-- Build the detail record from the capture groups of the first pattern
(`result[0][0]` name, `result[0][2]` description, `result[0][1]` type). -/
def detailOfNameTypeDesc (caps : List (List Char)) : Option ParameterDetailInfo :=
  match caps with
  | [nm, ty, ds] =>
    some { name := some nm, data_type := some ⟨ty⟩, description := some ds }
  | _ => none

def detailOfNameDesc (caps : List (List Char)) : Option ParameterDetailInfo :=
  match caps with
  | [nm, ds] => some { name := some nm, description := some ds }
  | _ => none

def detailOfNameType (caps : List (List Char)) : Option ParameterDetailInfo :=
  match caps with
  | [nm, ty] => some { name := some nm, data_type := some ⟨ty⟩ }
  | _ => none

/-- `FunctionAnalyzer._get_param_paragraph`: require a name-bearing
`literal_strong`/`strong` child (its final occurrence, as the Python loop
keeps overwriting `name`); collapse and normalize the flattened paragraph
text; then try the three patterns in order.  `none` models the dropped —
warned-about but non-fatal — parameter. -/
def getParamParagraph (elm : Elem) : Option ParameterDetailInfo :=
  let nameTxt := ((elm.children.filter
      (fun l => l.tag = "literal_strong" || l.tag = "strong")).getLast?).bind Elem.text
  match nameTxt with
  | none => none
  | some _ =>
    let str2 := stripSpacesAfterParen (collapseSpaces (textify elm))
    match reFirstMatch patternNameTypeDesc str2 with
    | some caps => detailOfNameTypeDesc caps
    | none =>
      match reFirstMatch patternNameDesc str2 with
      | some caps => detailOfNameDesc caps
      | none =>
        match reFirstMatch patternNameType str2 with
        | some caps => detailOfNameType caps
        | none => none

/-- A paragraph element whose strong run holds `nm` and whose remaining
flattened text is the strong run's tail `rest`. -/
def mkParamPara (nm rest : String) : Elem :=
  .mk "paragraph" [] none
    [.mk "literal_strong" [] (some nm.toList) [] (some rest.toList)] none

/-! ### `VariableAnalyzer` -/

/-- The `result` dictionary filled by `VariableAnalyzer._parse_desc_content`. -/
structure VarContent where
  desc : Option (List Char) := none
  data_dtype : Option (List Char) := none
deriving DecidableEq, Repr

/-- One step of `VariableAnalyzer._parse_field`: track the last
`field_name` text; on a `field_body` under label `Type`, store the
collapsed flattened text. -/
def varFieldStep (st : Option (List Char) × VarContent) (c : Elem) :
    Option (List Char) × VarContent :=
  if c.tag = "field_name" then (c.text, st.2)
  else if c.tag = "field_body" then
    if st.1 = some ("Type".toList) then
      (st.1, { st.2 with data_dtype := some (collapseSpaces (textify c)) })
    else st
  else st

/-- `VariableAnalyzer._parse_field` (the initial field label is `""`). -/
def varParseField (e : Elem) (r : VarContent) : VarContent :=
  (e.children.foldl varFieldStep (some [], r)).2

def varFieldListStep (r : VarContent) (c : Elem) : VarContent :=
  if c.tag = "field" then varParseField c r else r

def varParseFieldList (e : Elem) (r : VarContent) : VarContent :=
  e.children.foldl varFieldListStep r

/-- One step of `VariableAnalyzer._parse_desc_content`: every paragraph
overwrites `desc`, field lists contribute `data_dtype`. -/
def varContentStep (r : VarContent) (c : Elem) : VarContent :=
  if c.tag = "paragraph" then { r with desc := some (collapseSpaces (textify c)) }
  else if c.tag = "field_list" then varParseFieldList c r
  else r

/-- `VariableAnalyzer._parse_desc_content` over the content node's children. -/
def varParseDescContent (cs : List Elem) : VarContent :=
  cs.foldl varContentStep {}

/-- Python `hay.rfind(pat)`: highest index at which `pat` occurs. -/
def findSubLast (hay pat : List Char) : Option Nat :=
  ((List.range (hay.length + 1)).reverse).find? (fun i => pat.isPrefixOf (hay.drop i))

/-- The name computation of `VariableAnalyzer.analyze` on a
`desc_signature` node: prefer the `fullname` attribute, fall back to the
`desc_name` child's text, then strip a `class.` prefix when the `class`
attribute occurs inside the name. -/
def varSignatureName (child : Elem) : Except String (Option (List Char)) := do
  let name0 : Option (List Char) ←
    match child.get "fullname" with
    | some n => pure (some n)
    | none =>
      match child.findChild "desc_name" with
      | none => .error "AttributeError: no desc_name child"
      | some dn => pure dn.text
  match child.get "class" with
  | some cl =>
    if cl ≠ [] then
      match name0 with
      | none => .error "AttributeError: rfind on None"
      | some nm =>
        match findSubLast nm cl with
        | some idx => pure (some (nm.drop (idx + cl.length + 1)))
        | none => pure (some nm)
    else pure name0
  | none => pure name0

/-- The child loop of `VariableAnalyzer.analyze` (second `desc_signature`
is a fatal ordering error; `desc_content` before any signature likewise). -/
def variableAnalyzeLoop : List Elem → VariableInfo → Bool →
    Except String (VariableInfo × Bool)
  | [], info, sigDone => .ok (info, sigDone)
  | c :: rest, info, sigDone =>
    if c.tag = "desc_signature" then
      if sigDone then .error "desc_content must be parsed after parsing desc_signature"
      else do
        let name ← varSignatureName c
        variableAnalyzeLoop rest
          { info with name := name, class_ := c.get "class", module := c.get "module" } true
    else if c.tag = "desc_content" then
      if !sigDone then .error "desc_signature must be parsed before parsing desc_content"
      else
        let r := varParseDescContent c.children
        variableAnalyzeLoop rest
          { info with
            description := (match r.desc with | some d => some d | none => info.description),
            data_type := (match r.data_dtype with
              | some d => some ⟨d⟩
              | none => info.data_type) } sigDone
    else variableAnalyzeLoop rest info sigDone

/-- `VariableAnalyzer.analyze`. -/
def variableAnalyze (type_ : String) (elm : Elem) : Except String VariableInfo := do
  let (info, sigDone) ← variableAnalyzeLoop elm.children { type_ := type_ } false
  if !sigDone then .error "The data data is not parsed" else .ok info

/-! ### `FunctionAnalyzer` -/

/-- The `result` dictionary filled by `FunctionAnalyzer._parse_desc_content`. -/
structure FuncContent where
  desc : Option (List Char) := none
  return_dtype : Option (List Char) := none
  return_desc : Option (List Char) := none
  params_detail : Option (List ParameterDetailInfo) := none
deriving DecidableEq, Repr

/-- `FunctionAnalyzer._get_return_type`: collapsed text of the first
paragraph child, or the empty string (with a warning) when there is none. -/
def getReturnType (e : Elem) : List Char :=
  match e.children.find? (fun c => c.tag = "paragraph") with
  | some p => collapseSpaces (textify p)
  | none => []

/-- `FunctionAnalyzer._analyze_list_item`: the first paragraph child feeds
`_get_param_paragraph`; a missing paragraph drops the item with a warning. -/
def analyzeListItem (e : Elem) : Option ParameterDetailInfo :=
  match e.children.find? (fun c => c.tag = "paragraph") with
  | none => none
  | some p => getParamParagraph p

def parseBulletList (e : Elem) : List ParameterDetailInfo :=
  (e.children.filter (fun c => c.tag = "list_item")).filterMap analyzeListItem

/-- `FunctionAnalyzer._analyze_param_list`: a bullet list replaces the
collected parameters; a paragraph replaces them with a singleton if it
parses. -/
def analyzeParamList (e : Elem) : List ParameterDetailInfo :=
  e.children.foldl (fun params c =>
    if c.tag = "bullet_list" then parseBulletList c
    else if c.tag = "paragraph" then
      match getParamParagraph c with
      | some p => [p]
      | none => params
    else params) []

/-- One step of `FunctionAnalyzer._parse_field`. -/
def funcFieldStep (st : Option (List Char) × FuncContent) (c : Elem) :
    Option (List Char) × FuncContent :=
  if c.tag = "field_name" then (c.text, st.2)
  else if c.tag = "field_body" then
    if st.1 = some ("Parameters".toList) then
      (st.1, { st.2 with params_detail := some (analyzeParamList c) })
    else if st.1 = some ("Return type".toList) then
      (st.1, { st.2 with return_dtype := some (getReturnType c) })
    else if st.1 = some ("Returns".toList) then
      (st.1, { st.2 with return_desc := some (collapseSpaces (textify c)) })
    else st
  else st

/-- `FunctionAnalyzer._parse_field` (the initial field label is `""`). -/
def funcParseField (e : Elem) (r : FuncContent) : FuncContent :=
  (e.children.foldl funcFieldStep (some [], r)).2

def funcFieldListStep (r : FuncContent) (c : Elem) : FuncContent :=
  if c.tag = "field" then funcParseField c r else r

def funcParseFieldList (e : Elem) (r : FuncContent) : FuncContent :=
  e.children.foldl funcFieldListStep r

/-- One step of `FunctionAnalyzer._parse_desc_content`. -/
def funcContentStep (r : FuncContent) (c : Elem) : FuncContent :=
  if c.tag = "paragraph" then { r with desc := some (collapseSpaces (textify c)) }
  else if c.tag = "field_list" then funcParseFieldList c r
  else r

/-- `FunctionAnalyzer._parse_desc_content` over the content node's children. -/
def funcParseDescContent (cs : List Elem) : FuncContent :=
  cs.foldl funcContentStep {}

/-- `child.find("desc_name").text` with Python's attribute errors. -/
def descNameText (child : Elem) : Except String (List Char) :=
  match child.findChild "desc_name" with
  | none => .error "AttributeError: no desc_name child"
  | some dn =>
    match dn.text with
    | none => .error "AttributeError: text is None"
    | some t => .ok t

/-- `FunctionAnalyzer._get_parameters`: join the `desc_parameter` children's
texts with commas and tokenize. -/
def getParameters (filename : String) (e : Elem) : Except String (List (List Char)) :=
  let bodies := (e.children.filter (fun c => c.tag = "desc_parameter")).map Elem.text
  match bodies.mapM id with
  | none => .error "TypeError: join on None"
  | some bs => parseParameterBodyText filename (joinComma bs)

/-- Python `text.find(c)` as an option: index of the first occurrence. -/
def idxOfFirst (s : List Char) (c : Char) : Option Nat :=
  match s with
  | [] => none
  | x :: rest => if x = c then some 0 else (idxOfFirst rest c).map (fun i => i + 1)

/-- Python `text.rfind(c)` as an option: index of the last occurrence. -/
def idxOfLast (s : List Char) (c : Char) : Option Nat :=
  match s with
  | [] => none
  | x :: rest =>
    match idxOfLast rest c with
    | some i => some (i + 1)
    | none => if x = c then some 0 else none

/-- The signature-text part of `FunctionAnalyzer.analyze`: with both `(`
and `)` present, the name is the text before the first `(` and the span
between first `(` and last `)` is tokenized; otherwise (after a notice) the
name is the text — truncated at a first `(` when one exists, with a warning
— and parameters come from the explicit `desc_parameterlist` node if any. -/
def funcSignatureNameParams (filename : String) (text : List Char) (plist : Option Elem) :
    Except String (List Char × List (List Char)) :=
  match idxOfFirst text '(', idxOfLast text ')' with
  | some lp, some rp => do
    let params ← parseParameterBodyText filename ((text.drop (lp + 1)).take (rp - (lp + 1)))
    .ok (text.take lp, params)
  | _, _ =>
    let name := match idxOfFirst text '(' with
      | some i => text.take i
      | none => text
    match plist with
    | some c => do
      let ps ← getParameters filename c
      .ok (name, ps)
    | none => .ok (name, [])

/-- The child loop of `FunctionAnalyzer.analyze`: a second `desc_signature`
is skipped (`continue`), the first `desc_content` ends the loop (`break`).
The fullname-mismatch check only emits a notice and is not modelled. -/
def functionAnalyzeLoop (filename : String) : List Elem → FunctionInfo → Bool →
    Except String (FunctionInfo × Bool)
  | [], info, sigDone => .ok (info, sigDone)
  | c :: rest, info, sigDone =>
    if c.tag = "desc_signature" then
      if sigDone then functionAnalyzeLoop filename rest info true
      else do
        let text ← descNameText c
        let (name, params) ← funcSignatureNameParams filename text
          (c.findChild "desc_parameterlist")
        functionAnalyzeLoop filename rest
          { info with
            name := some name,
            parameters := info.parameters ++ params,
            module := c.get "module",
            class_ := c.get "class" } true
    else if c.tag = "desc_content" then
      if !sigDone then .error "desc_signature must be parsed before parsing desc_content"
      else
        let r := funcParseDescContent c.children
        .ok ({ info with
          description := (match r.desc with | some d => some d | none => info.description),
          return_ := some {
            data_type := r.return_dtype.map (fun d => (⟨d⟩ : IntermidiateDataType)),
            description := r.return_desc },
          parameter_details := info.parameter_details ++ r.params_detail.getD [] }, sigDone)
    else functionAnalyzeLoop filename rest info sigDone

/-- `FunctionAnalyzer.analyze`. -/
def functionAnalyze (filename : String) (type_ : String) (elm : Elem) :
    Except String FunctionInfo := do
  let (info, sigDone) ← functionAnalyzeLoop filename elm.children { type_ := type_ } false
  if !sigDone then .error "The function data is not parsed" else .ok info

/-! ### `ClassAnalyzer` -/

/-- `ClassAnalyzer._parse_desc_content`: paragraphs overwrite the
description, `desc` children are dispatched by `desctype` into methods
("function"/"method") and attributes ("attribute"/"data"). -/
def classContentLoop (filename : String) :
    List Elem → Option (List Char) × List FunctionInfo × List VariableInfo →
    Except String (Option (List Char) × List FunctionInfo × List VariableInfo)
  | [], st => .ok st
  | c :: rest, st =>
    if c.tag = "paragraph" then
      classContentLoop filename rest (some (collapseSpaces (textify c)), st.2)
    else if c.tag = "desc" then
      match c.get "desctype" with
      | some dt =>
        if dt = "function".toList || dt = "method".toList then do
          let m ← functionAnalyze filename "method" c
          classContentLoop filename rest (st.1, st.2.1 ++ [m], st.2.2)
        else if dt = "attribute".toList || dt = "data".toList then do
          let a ← variableAnalyze "attribute" c
          classContentLoop filename rest (st.1, st.2.1, st.2.2 ++ [a])
        else classContentLoop filename rest st
      | none => classContentLoop filename rest st
    else classContentLoop filename rest st

/-- The child loop of `ClassAnalyzer.analyze` (a second `desc_signature`
is ignored). -/
def classAnalyzeLoop (filename : String) : List Elem → ClassInfo → Bool →
    Except String (ClassInfo × Bool)
  | [], info, sigDone => .ok (info, sigDone)
  | c :: rest, info, sigDone =>
    if c.tag = "desc_signature" then
      if sigDone then classAnalyzeLoop filename rest info true
      else
        classAnalyzeLoop filename rest
          { info with name := c.get "fullname", module := c.get "module" } true
    else if c.tag = "desc_content" then
      if !sigDone then .error "desc_signature must be parsed before parsing desc_content"
      else do
        let (d, ms, ats) ← classContentLoop filename c.children (none, [], [])
        classAnalyzeLoop filename rest
          { info with
            description := (match d with | some dd => some dd | none => info.description),
            methods := info.methods ++ ms,
            attributes := info.attributes ++ ats } sigDone
    else classAnalyzeLoop filename rest info sigDone

/-- `ClassAnalyzer.analyze`. -/
def classAnalyze (filename : String) (elm : Elem) : Except String ClassInfo := do
  let (info, sigDone) ← classAnalyzeLoop filename elm.children {} false
  if !sigDone then .error "The class data is not parsed" else .ok info

/-! ### `BaseAnalyzer`: section traversal -/

/-- `Info.type()`: the discriminant string of an entity. -/
def infoType : Info → String
  | .var v => v.type_
  | .func f => f.type_
  | .cls _ => "class"

/-- `Info.name()`. -/
def infoName : Info → Option (List Char)
  | .var v => v.name
  | .func f => f.name
  | .cls c => c.name

/-- `Info.module()`. -/
def infoModule : Info → Option (List Char)
  | .var v => v.module
  | .func f => f.module
  | .cls c => c.module

/-- `BaseAnalyzer._analyze_desc`: dispatch on the `desctype` attribute;
unknown discriminants yield no entity. -/
def analyzeDesc (filename : String) (desc : Elem) : Except String (Option Info) :=
  match desc.get "desctype" with
  | some dt =>
    if dt = "function".toList || dt = "method".toList then do
      let f ← functionAnalyze filename "function" desc
      .ok (some (.func f))
    else if dt = "data".toList then do
      let v ← variableAnalyze "constant" desc
      .ok (some (.var v))
    else if dt = "class".toList then do
      let c ← classAnalyze filename desc
      .ok (some (.cls c))
    else .ok none
  | none => .ok none

/-- `BaseAnalyzer._analyze_base_classes`: every `reference` descendant's
`reftitle` attribute becomes an `IntermidiateDataType`. -/
def analyzeBaseClasses (elm : Elem) : Except String (List IntermidiateDataType) :=
  (iterTag "reference" elm).mapM (fun r =>
    match r.get "reftitle" with
    | some t => .ok (⟨t⟩ : IntermidiateDataType)
    | none => .error "KeyError: reftitle")

/-- `BaseAnalyzer._analyze_desc_with_base_classes`: only a class may take
pending base classes; anything else is a fatal error. -/
def analyzeDescWithBaseClasses (filename : String) (desc : Elem)
    (bases : List IntermidiateDataType) : Except String (Option Info) :=
  match desc.get "desctype" with
  | some dt =>
    if dt = "class".toList then do
      let c ← classAnalyze filename desc
      .ok (some (.cls { c with base_classes := c.base_classes ++ bases }))
    else .error "desctype must be 'class' when base_classes are exist"
  | none => .error "desctype must be 'class' when base_classes are exist"

/-- The marker test of `_analyze_section` (the dash is U+2014); an absent or
empty text is falsy in Python and fails the prefix test here alike. -/
def isBaseClassMarker (t : List Char) : Bool :=
  ("base classes — ".toList).isPrefixOf t || ("base class — ".toList).isPrefixOf t

mutual

/-- `BaseAnalyzer._analyze_section` over a child list: a marker paragraph
replaces the pending base-class list (which is *not* cleared after use);
`desc` children are analyzed, with the pending bases when any; nested
sections recurse with their own fresh pending list, accumulating into the
same result list. -/
def analyzeSectionChildren (filename : String) :
    List Elem → List IntermidiateDataType → List Info → Except String (List Info)
  | [], _bc, acc => .ok acc
  | c :: rest, bc, acc =>
    if c.tag = "paragraph" then
      match c.text with
      | some t =>
        if isBaseClassMarker t then do
          let bc' ← analyzeBaseClasses c
          analyzeSectionChildren filename rest bc' acc
        else analyzeSectionChildren filename rest bc acc
      | none => analyzeSectionChildren filename rest bc acc
    else if c.tag = "desc" then
      if bc.isEmpty then do
        let r ← analyzeDesc filename c
        match r with
        | some i => analyzeSectionChildren filename rest bc (acc ++ [i])
        | none => analyzeSectionChildren filename rest bc acc
      else do
        let r ← analyzeDescWithBaseClasses filename c bc
        match r with
        | some i => analyzeSectionChildren filename rest bc (acc ++ [i])
        | none => analyzeSectionChildren filename rest bc acc
    else if c.tag = "section" then do
      let acc' ← analyzeSectionRec filename c acc
      analyzeSectionChildren filename rest bc acc'
    else analyzeSectionChildren filename rest bc acc

/-- The recursive `_analyze_section` call on a nested section element: a
fresh local pending base-class list, the same accumulating result list. -/
def analyzeSectionRec (filename : String) : Elem → List Info → Except String (List Info)
  | .mk _ _ _ cs _, acc => analyzeSectionChildren filename cs [] acc

end

/-- `BaseAnalyzer._analyze_section` on one section element, with an empty
initial pending base-class list and result list. -/
def analyzeSection (filename : String) (elm : Elem) : Except String (List Info) :=
  analyzeSectionRec filename elm []

/-! ### `AnalyzerWithModFile`: the patch engine -/

/-- One documentation section of the output model. -/
structure SectionInfo where
  info_list : List Info
deriving DecidableEq, Repr

/-- The aggregated model exchanged with the patch engine. -/
structure AnalysisResult where
  section_info : List SectionInfo
deriving DecidableEq, Repr

/-- A patch item: a JSON object; `none` in an outer position models an
absent key, and `module := some none` models an explicit JSON `null`.
`description` stands for the additional entity fields an item may carry. -/
structure PatchItem where
  type_ : Option String := none
  name : Option (List Char) := none
  module : Option (Option (List Char)) := none
  description : Option (List Char) := none
deriving DecidableEq, Repr

/-- The selection test of the "remove" loop, exactly as coded: an entity is
collected for removal when type and name are present and equal and then
either the item has a module and the entity's module **differs**, or the
item has no module and the entity's module is `None`. -/
def removeSelected (item : PatchItem) (i : Info) : Bool :=
  match item.type_ with
  | none => false
  | some t =>
    if infoType i ≠ t then false
    else
      match item.name with
      | none => false
      | some n =>
        if infoName i ≠ some n then false
        else
          match item.module with
          | some m => decide (infoModule i ≠ m)
          | none => decide (infoModule i = none)

/-- Python `str(x)` for a nullable string. -/
def fmtOpt (o : Option (List Char)) : String :=
  match o with
  | some s => String.mk s
  | none => "None"

/-- Removal of one item from every section.  The Python code collects the
matching objects per section and then `list.remove`s each; since selection
is a function of the value, that is the same as filtering, with one log
line per removed entity. -/
def processRemoveItem (item : PatchItem) (m : AnalysisResult) :
    AnalysisResult × List String :=
  let stepped := m.section_info.map (fun s =>
    ((⟨s.info_list.filter (fun i => !removeSelected item i)⟩ : SectionInfo),
     s.info_list.filter (removeSelected item)))
  (⟨stepped.map (fun p => p.1)⟩,
   (stepped.map (fun p => p.2.map (fun i =>
      fmtOpt (infoName i) ++ " (type=" ++ infoType i ++ ") is removed"))).flatten)

def removeFold (st : AnalysisResult × List String) (item : PatchItem) :
    AnalysisResult × List String :=
  let r := processRemoveItem item st.1
  (r.1, st.2 ++ r.2)

def processRemove (items : List PatchItem) (m : AnalysisResult) :
    AnalysisResult × List String :=
  items.foldl removeFold (m, [])

/-- The existence test of the "new" loop: type, name and module must all be
present in the item and equal those of some entity. -/
def newMatch (item : PatchItem) (i : Info) : Bool :=
  match item.type_ with
  | none => false
  | some t =>
    if infoType i ≠ t then false
    else
      match item.name with
      | none => false
      | some n =>
        if infoName i ≠ some n then false
        else
          match item.module with
          | some m => decide (infoModule i = m)
          | none => false

def hasEntry (item : PatchItem) (m : AnalysisResult) : Bool :=
  m.section_info.any (fun s => s.info_list.any (newMatch item))

/-- Modelled from the spec: `from_dict(item, 'NEW')` (`common.py` is not
under src/) constructs the fresh entity from the item's fields (§4.6). -/
def variableFromDictNew (type_ : String) (item : PatchItem) : VariableInfo :=
  { type_ := type_, name := item.name, module := item.module.join,
    description := item.description }

/-- Modelled from the spec: as `variableFromDictNew`, for functions. -/
def functionFromDictNew (type_ : String) (item : PatchItem) : FunctionInfo :=
  { type_ := type_, name := item.name, module := item.module.join,
    description := item.description }

/-- Modelled from the spec: as `variableFromDictNew`, for classes. -/
def classFromDictNew (item : PatchItem) : ClassInfo :=
  { name := item.name, module := item.module.join, description := item.description }

/-- The constructor dispatch of the "new" loop; any other type is the fatal
`Unsupported Type` error. -/
def newInfoOfItem (t : String) (item : PatchItem) : Except String Info :=
  if t = "constant" then .ok (.var (variableFromDictNew "constant" item))
  else if t = "function" then .ok (.func (functionFromDictNew "function" item))
  else if t = "class" then .ok (.cls (classFromDictNew item))
  else .error ("Unsupported Type: " ++ t)

/-- The item loop of the "new" block: duplicates are skipped with a log
line; the accumulated section is appended to the model only after the loop.
An item without a `type` key would hit Python's `item["type"]` KeyError;
one without `name` can only log if the key exists. -/
def processNewItems (m : AnalysisResult) :
    List PatchItem → List Info → List String → Except String (List Info × List String)
  | [], sec, logs => .ok (sec, logs)
  | item :: rest, sec, logs =>
    if hasEntry item m then
      match item.name with
      | some n => processNewItems m rest sec (logs ++ [String.mk n ++ " is already registered"])
      | none => .error "KeyError: name"
    else
      match item.type_ with
      | none => .error "KeyError: type"
      | some t => do
        let i ← newInfoOfItem t item
        processNewItems m rest (sec ++ [i]) logs

def processNew (items : List PatchItem) (m : AnalysisResult) :
    Except String (AnalysisResult × List String) := do
  let (sec, logs) ← processNewItems m items [] []
  .ok ((⟨m.section_info ++ [⟨sec⟩]⟩ : AnalysisResult), logs)

/-- Modelled from the spec: `from_dict(item, 'APPEND')` and
`from_dict(item, 'UPDATE')` — §9 records that the reference behavior is an
unconditional field copy for both modes, so both are modelled as copying
the item's carried fields onto the entity. -/
def infoFromDictFields (i : Info) (item : PatchItem) : Info :=
  match i with
  | .var v => .var { v with description :=
      (match item.description with | some d => some d | none => v.description) }
  | .func f => .func { f with description :=
      (match item.description with | some d => some d | none => f.description) }
  | .cls c => .cls { c with description :=
      (match item.description with | some d => some d | none => c.description) }

def editFold (m : AnalysisResult) (item : PatchItem) : AnalysisResult :=
  ⟨m.section_info.map (fun s =>
    (⟨s.info_list.map (fun i =>
      if newMatch item i then infoFromDictFields i item else i)⟩ : SectionInfo))⟩

/-- The shared loop of the "append" and "update" blocks: every matching
entity (same present type, name and module) absorbs the item's fields. -/
def processEdit (items : List PatchItem) (m : AnalysisResult) : AnalysisResult :=
  items.foldl editFold m

/-- One override document: each key optional, each an array of items. -/
structure ModFile where
  remove : Option (List PatchItem) := none
  new : Option (List PatchItem) := none
  append : Option (List PatchItem) := none
  update : Option (List PatchItem) := none

def stageRemove (mf : ModFile) (m : AnalysisResult) : AnalysisResult × List String :=
  match mf.remove with
  | none => (m, [])
  | some items => processRemove items m

def stageNew (mf : ModFile) (m : AnalysisResult) :
    Except String (AnalysisResult × List String) :=
  match mf.new with
  | none => .ok (m, [])
  | some items => processNew items m

def stageAppend (mf : ModFile) (m : AnalysisResult) : AnalysisResult :=
  match mf.append with
  | none => m
  | some items => processEdit items m

def stageUpdate (mf : ModFile) (m : AnalysisResult) : AnalysisResult :=
  match mf.update with
  | none => m
  | some items => processEdit items m

/-- `AnalyzerWithModFile._modify_with_mod_file`: remove, new, append and
update blocks in that textual order, each only when its key is present.
A Python exception aborts the whole application, modelled by `Except`. -/
def modifyWithModFile (mf : ModFile) (m : AnalysisResult) :
    Except String (AnalysisResult × List String) :=
  match stageNew mf (stageRemove mf m).1 with
  | .error e => .error e
  | .ok r2 => .ok (stageUpdate mf (stageAppend mf r2.1), (stageRemove mf m).2 ++ r2.2)

/-- Total number of entities across the model's sections. -/
def entityCount (m : AnalysisResult) : Nat :=
  (m.section_info.map (fun s => s.info_list.length)).sum

/-! ### Claim C7: parameter-detail pattern extraction -/

/-- **C7.**  Parameter-detail extraction from one paragraph: the three
patterns are tried in priority order on the collapsed flattened text and
the first match decides the result.  The three spec examples; two inputs
that match more than one pattern and resolve in favor of the earlier one;
a paragraph matching no pattern and one with no name-bearing strong run
are dropped — the result type `Option` carries no fatal error. -/
theorem c7_param_detail_patterns :
    getParamParagraph (mkParamPara "value" " (int) – the value") =
      some { name := some ("value".toList), data_type := some ⟨"int".toList⟩,
             description := some ("the value".toList) } ∧
    getParamParagraph (mkParamPara "value" " – the value") =
      some { name := some ("value".toList), description := some ("the value".toList) } ∧
    getParamParagraph (mkParamPara "value" " (int) – ") =
      some { name := some ("value".toList), data_type := some ⟨"int".toList⟩ } ∧
    getParamParagraph (mkParamPara "a" " (b) – c – d") =
      some { name := some ("a".toList), data_type := some ⟨"b".toList⟩,
             description := some ("c – d".toList) } ∧
    getParamParagraph (mkParamPara "a" " – b (c) – ") =
      some { name := some ("a".toList), description := some ("b (c) – ".toList) } ∧
    getParamParagraph (mkParamPara "value" " no dash") = none ∧
    getParamParagraph (.mk "paragraph" [] (some ("value (int) – x".toList)) [] none) = none :=
  ⟨rfl, rfl, rfl, rfl, rfl, rfl, rfl⟩

/-! ### Claim C8: function signature parsing -/

theorem take_idxOfFirst_eq_takeWhile (s : List Char) (c : Char) :
    (match idxOfFirst s c with
     | some i => s.take i
     | none => s) = s.takeWhile (fun x => x ≠ c) := by
  induction s with
  | nil => rfl
  | cons x rest ih =>
    simp only [idxOfFirst]
    by_cases hx : x = c
    · subst hx
      simp [List.takeWhile_cons]
    · rw [if_neg hx]
      cases hfind : idxOfFirst rest c with
      | none =>
        simp only [ne_eq, decide_not] at ih ⊢
        rw [hfind] at ih
        simp only at ih
        simp [List.takeWhile_cons, hx]
        exact ih
      | some i =>
        simp only [ne_eq, decide_not] at ih ⊢
        rw [hfind] at ih
        simp only at ih
        simp [List.takeWhile_cons, hx, List.take_succ_cons]
        exact ih

def c8descBoth : Elem :=
  .mk "desc" [("desctype", "function".toList)] none
    [.mk "desc_signature" [("fullname", "foo".toList), ("module", "m".toList)] none
      [.mk "desc_name" [] (some ("foo(a, b=1)".toList)) [] none] none] none

def c8descPlist : Elem :=
  .mk "desc" [("desctype", "function".toList)] none
    [.mk "desc_signature" [] none
      [.mk "desc_name" [] (some ("foo".toList)) [] none,
       .mk "desc_parameterlist" [] none
         [.mk "desc_parameter" [] (some ("a".toList)) [] none,
          .mk "desc_parameter" [] (some ("b=1".toList)) [] none] none] none] none

def c8descBare : Elem :=
  .mk "desc" [("desctype", "function".toList)] none
    [.mk "desc_signature" [] none
      [.mk "desc_name" [] (some ("foo".toList)) [] none] none] none

def c8descNoClose : Elem :=
  .mk "desc" [("desctype", "function".toList)] none
    [.mk "desc_signature" [] none
      [.mk "desc_name" [] (some ("foo(a".toList)) [] none] none] none

/-- **C8 (amended).**  The stored function name is always the declared text
truncated before its first `(` (the full text when there is none — but not
when a `(` appears without `)`, see the counterexample); when the text has
both `(` and `)` the raw parameters come from tokenizing the span between
the first `(` and the last `)`, otherwise from the explicit parameter-list
sub-node when present and else empty; `"foo(a, b=1)"` with no explicit
parameter-list node yields name `"foo"` and parameters `["a", "b=1"]`. -/
theorem c8_signature_parsing :
    (∀ (f : String) (text : List Char) (pl : Option Elem) (r : List Char × List (List Char)),
        funcSignatureNameParams f text pl = .ok r →
        r.1 = text.takeWhile (fun x => x ≠ '(')) ∧
    functionAnalyze "doc.xml" "function" c8descBoth =
      .ok { type_ := "function", name := some ("foo".toList), module := some ("m".toList),
            parameters := ["a".toList, "b=1".toList] } ∧
    functionAnalyze "doc.xml" "function" c8descPlist =
      .ok { type_ := "function", name := some ("foo".toList),
            parameters := ["a".toList, "b=1".toList] } ∧
    functionAnalyze "doc.xml" "function" c8descBare =
      .ok { type_ := "function", name := some ("foo".toList) } := by
  refine ⟨?_, rfl, rfl, rfl⟩
  intro f text pl r h
  rw [← take_idxOfFirst_eq_takeWhile text '(']
  unfold funcSignatureNameParams at h
  cases hlp : idxOfFirst text '(' with
  | none =>
    rw [hlp] at h
    cases pl with
    | none =>
      simp only [Except.ok.injEq] at h
      rw [← h]
    | some c =>
      simp only [bind, Except.bind] at h
      cases hps : getParameters f c with
      | error e => rw [hps] at h; cases h
      | ok ps =>
        rw [hps] at h
        simp only [Except.ok.injEq] at h
        rw [← h]
  | some lp =>
    rw [hlp] at h
    cases hrp : idxOfLast text ')' with
    | none =>
      rw [hrp] at h
      cases pl with
      | none =>
        simp only [Except.ok.injEq] at h
        rw [← h]
      | some c =>
        simp only [bind, Except.bind] at h
        cases hps : getParameters f c with
        | error e => rw [hps] at h; cases h
        | ok ps =>
          rw [hps] at h
          simp only [Except.ok.injEq] at h
          rw [← h]
    | some rp =>
      rw [hrp] at h
      simp only [bind, Except.bind] at h
      cases hps : parseParameterBodyText f ((text.drop (lp + 1)).take (rp - (lp + 1))) with
      | error e => rw [hps] at h; cases h
      | ok ps =>
        rw [hps] at h
        simp only [Except.ok.injEq] at h
        rw [← h]

/-- **C8, witness** for the universally quantified clause, at the spec's
example signature text. -/
theorem c8_signature_parsing_witness :
    (((("foo".toList), (["a".toList, "b=1".toList] : List (List Char))) :
        List Char × List (List Char)).1) =
      ("foo(a, b=1)".toList).takeWhile (fun x => x ≠ '(') :=
  c8_signature_parsing.1 "doc.xml" ("foo(a, b=1)".toList) none
    (("foo".toList), ["a".toList, "b=1".toList]) rfl

/-- **C8, counterexample** to the claim as stated: the declared text
`"foo(a"` has a `(` but no `)`, and the stored name is `"foo"`, not the
full declared text as the claim requires for this case. -/
theorem c8_counterexample :
    functionAnalyze "doc.xml" "function" c8descNoClose =
      .ok { type_ := "function", name := some ("foo".toList) } ∧
    some ("foo".toList) ≠ some ("foo(a".toList) := ⟨rfl, by decide⟩

/-! ### Claim C9: which paragraph becomes the description -/

theorem varFieldStep_desc (st : Option (List Char) × VarContent) (c : Elem) :
    ((varFieldStep st c).2).desc = (st.2).desc := by
  unfold varFieldStep
  split
  · rfl
  · split
    · split
      · rfl
      · rfl
    · rfl

theorem foldl_varFieldStep_desc (cs : List Elem) :
    ∀ st, ((cs.foldl varFieldStep st).2).desc = (st.2).desc := by
  induction cs with
  | nil => intro st; rfl
  | cons c rest ih =>
    intro st
    rw [List.foldl_cons, ih, varFieldStep_desc]

theorem varParseField_desc (e : Elem) (r : VarContent) :
    (varParseField e r).desc = r.desc := by
  unfold varParseField
  exact foldl_varFieldStep_desc _ _

theorem varFieldListStep_desc (r : VarContent) (c : Elem) :
    (varFieldListStep r c).desc = r.desc := by
  unfold varFieldListStep
  by_cases h : c.tag = "field" <;> simp [h, varParseField_desc]

theorem varParseFieldList_desc (e : Elem) (r : VarContent) :
    (varParseFieldList e r).desc = r.desc := by
  unfold varParseFieldList
  induction e.children generalizing r with
  | nil => rfl
  | cons c rest ih => rw [List.foldl_cons, ih, varFieldListStep_desc]

theorem foldl_varContentStep_desc (cs : List Elem) :
    ∀ r : VarContent, (cs.foldl varContentStep r).desc =
      (match (cs.filter (fun c => c.tag = "paragraph")).getLast? with
       | some c => some (collapseSpaces (textify c))
       | none => r.desc) := by
  induction cs with
  | nil => intro r; rfl
  | cons c rest ih =>
    intro r
    rw [List.foldl_cons, ih]
    by_cases h1 : c.tag = "paragraph"
    · have hstep : varContentStep r c = { r with desc := some (collapseSpaces (textify c)) } := by
        unfold varContentStep
        simp [h1]
      rw [hstep, List.filter_cons]
      simp only [h1, decide_True, if_true]
      cases hfil : rest.filter (fun c => c.tag = "paragraph") with
      | nil => simp
      | cons d ds =>
        rw [List.getLast?_cons_cons]
        cases hlast : (d :: ds).getLast? with
        | none => simp at hlast
        | some x => rfl
    · by_cases h2 : c.tag = "field_list"
      · have hstep : varContentStep r c = varParseFieldList c r := by
          unfold varContentStep
          simp [h1, h2]
        rw [hstep, List.filter_cons]
        simp only [h1, decide_False, Bool.false_eq_true, if_false]
        rw [varParseFieldList_desc]
      · have hstep : varContentStep r c = r := by
          unfold varContentStep
          simp [h1, h2]
        rw [hstep, List.filter_cons]
        simp only [h1, decide_False, Bool.false_eq_true, if_false]

theorem funcFieldStep_desc (st : Option (List Char) × FuncContent) (c : Elem) :
    ((funcFieldStep st c).2).desc = (st.2).desc := by
  unfold funcFieldStep
  split
  · rfl
  · split
    · split
      · rfl
      · split
        · rfl
        · split
          · rfl
          · rfl
    · rfl

theorem foldl_funcFieldStep_desc (cs : List Elem) :
    ∀ st, ((cs.foldl funcFieldStep st).2).desc = (st.2).desc := by
  induction cs with
  | nil => intro st; rfl
  | cons c rest ih =>
    intro st
    rw [List.foldl_cons, ih, funcFieldStep_desc]

theorem funcParseField_desc (e : Elem) (r : FuncContent) :
    (funcParseField e r).desc = r.desc := by
  unfold funcParseField
  exact foldl_funcFieldStep_desc _ _

theorem funcFieldListStep_desc (r : FuncContent) (c : Elem) :
    (funcFieldListStep r c).desc = r.desc := by
  unfold funcFieldListStep
  by_cases h : c.tag = "field" <;> simp [h, funcParseField_desc]

theorem funcParseFieldList_desc (e : Elem) (r : FuncContent) :
    (funcParseFieldList e r).desc = r.desc := by
  unfold funcParseFieldList
  induction e.children generalizing r with
  | nil => rfl
  | cons c rest ih => rw [List.foldl_cons, ih, funcFieldListStep_desc]

theorem foldl_funcContentStep_desc (cs : List Elem) :
    ∀ r : FuncContent, (cs.foldl funcContentStep r).desc =
      (match (cs.filter (fun c => c.tag = "paragraph")).getLast? with
       | some c => some (collapseSpaces (textify c))
       | none => r.desc) := by
  induction cs with
  | nil => intro r; rfl
  | cons c rest ih =>
    intro r
    rw [List.foldl_cons, ih]
    by_cases h1 : c.tag = "paragraph"
    · have hstep : funcContentStep r c = { r with desc := some (collapseSpaces (textify c)) } := by
        unfold funcContentStep
        simp [h1]
      rw [hstep, List.filter_cons]
      simp only [h1, decide_True, if_true]
      cases hfil : rest.filter (fun c => c.tag = "paragraph") with
      | nil => simp
      | cons d ds =>
        rw [List.getLast?_cons_cons]
        cases hlast : (d :: ds).getLast? with
        | none => simp at hlast
        | some x => rfl
    · by_cases h2 : c.tag = "field_list"
      · have hstep : funcContentStep r c = funcParseFieldList c r := by
          unfold funcContentStep
          simp [h1, h2]
        rw [hstep, List.filter_cons]
        simp only [h1, decide_False, Bool.false_eq_true, if_false]
        rw [funcParseFieldList_desc]
      · have hstep : funcContentStep r c = r := by
          unfold funcContentStep
          simp [h1, h2]
        rw [hstep, List.filter_cons]
        simp only [h1, decide_False, Bool.false_eq_true, if_false]

/-- **C9 (amended).**  In both `VariableAnalyzer._parse_desc_content` and
`FunctionAnalyzer._parse_desc_content` each direct paragraph child
overwrites the `desc` entry, so the stored description is the collapsed
flattened text of the **last** direct paragraph child (outside field
lists), not the first. -/
theorem c9_description_is_last_paragraph :
    (∀ cs : List Elem, (varParseDescContent cs).desc =
      ((cs.filter (fun c => c.tag = "paragraph")).getLast?).map
        (fun c => collapseSpaces (textify c))) ∧
    (∀ cs : List Elem, (funcParseDescContent cs).desc =
      ((cs.filter (fun c => c.tag = "paragraph")).getLast?).map
        (fun c => collapseSpaces (textify c))) := by
  constructor
  · intro cs
    unfold varParseDescContent
    rw [foldl_varContentStep_desc]
    cases (cs.filter (fun c => c.tag = "paragraph")).getLast? <;> simp
  · intro cs
    unfold funcParseDescContent
    rw [foldl_funcContentStep_desc]
    cases (cs.filter (fun c => c.tag = "paragraph")).getLast? <;> simp

def c9desc : Elem :=
  .mk "desc" [("desctype", "data".toList)] none
    [.mk "desc_signature" [("fullname", "X".toList), ("module", "m".toList)] none [] none,
     .mk "desc_content" [] none
       [.mk "paragraph" [] (some ("A".toList)) [] none,
        .mk "paragraph" [] (some ("B".toList)) [] none] none] none

/-- **C9, counterexample** to the claim as stated: a content node with two
paragraphs `A` then `B` stores description `B` (the last paragraph), not
the leading paragraph's text `A`. -/
theorem c9_counterexample :
    variableAnalyze "constant" c9desc =
      .ok { type_ := "constant", name := some ("X".toList), module := some ("m".toList),
            description := some ("B".toList) } ∧
    collapseSpaces (textify (.mk "paragraph" [] (some ("A".toList)) [] none)) = "A".toList ∧
    some ("B".toList) ≠ some ("A".toList) := ⟨rfl, rfl, by decide⟩

/-! ### Claim C4: base-class markers in section traversal -/

def c4marker : Elem :=
  .mk "paragraph" [] (some ("base classes — ".toList))
    [.mk "reference" [("reftitle", "bpy.types.ID".toList)] none [] none] none

def c4classDesc (n : String) : Elem :=
  .mk "desc" [("desctype", "class".toList)] none
    [.mk "desc_signature" [("fullname", n.toList), ("module", "m".toList)] none [] none] none

def c4funcDesc : Elem :=
  .mk "desc" [("desctype", "function".toList)] none
    [.mk "desc_signature" [] none
      [.mk "desc_name" [] (some ("foo()".toList)) [] none] none] none

def c4secOne : Elem := .mk "section" [] none [c4marker, c4classDesc "A"] none

def c4secTwo : Elem :=
  .mk "section" [] none [c4marker, c4classDesc "A", c4classDesc "B"] none

def c4secBad : Elem := .mk "section" [] none [c4marker, c4funcDesc] none

/-- **C4 (amended).**  A `"base classes — "` marker paragraph attaches its
references (as `IntermidiateDataType` values read off `reftitle`) to the
next sibling entity node **and to every later entity node at the same
level** (the pending list is never cleared, only replaced by a later
marker); each such entity must be a class, otherwise traversal fails.  The
spec's single-class example extracts exactly one base class
`"bpy.types.ID"`. -/
theorem c4_base_classes :
    analyzeSection "doc.xml" c4secOne =
      .ok [.cls { name := some ("A".toList), module := some ("m".toList),
                  base_classes := [⟨"bpy.types.ID".toList⟩] }] ∧
    (∃ msg, analyzeSection "doc.xml" c4secBad = .error msg) ∧
    analyzeSection "doc.xml" c4secTwo =
      .ok [.cls { name := some ("A".toList), module := some ("m".toList),
                  base_classes := [⟨"bpy.types.ID".toList⟩] },
           .cls { name := some ("B".toList), module := some ("m".toList),
                  base_classes := [⟨"bpy.types.ID".toList⟩] }] :=
  ⟨rfl, ⟨_, rfl⟩, rfl⟩

/-- **C4, counterexample** to the claim as stated: with one marker followed
by two class nodes, the *second* class also receives the marker's base
classes, although it is not the next sibling entity and no new marker
preceded it — the claim says it should be analyzed without pending base
classes. -/
theorem c4_counterexample :
    analyzeSection "doc.xml" c4secTwo =
      .ok [.cls { name := some ("A".toList), module := some ("m".toList),
                  base_classes := [⟨"bpy.types.ID".toList⟩] },
           .cls { name := some ("B".toList), module := some ("m".toList),
                  base_classes := [⟨"bpy.types.ID".toList⟩] }] ∧
    ([(⟨"bpy.types.ID".toList⟩ : IntermidiateDataType)] :
        List IntermidiateDataType) ≠ [] := ⟨rfl, by decide⟩

/-! ### Claims C1 and C6: the "remove" matching of the patch engine -/

def c1entM : Info :=
  .var { type_ := "constant", name := some ("X".toList), module := some ("m".toList) }

def c1entN : Info :=
  .var { type_ := "constant", name := some ("X".toList), module := some ("n".toList) }

def c1item : PatchItem :=
  { type_ := some "constant", name := some ("X".toList), module := some (some ("m".toList)) }

/-- **C1 (code bug).**  A "remove" item for `(constant, X, module m)` run
against a model holding `X` in module `m` and `X` in module `n` removes
the entity whose module **differs** from the item (`n`) and keeps the one
that matches (`m`) — the matching condition in the code is inverted
(`info.module() != item["module"]` instead of `==`), contradicting both
the claim and the code's own comment "Remove item if the same item exists". -/
theorem c1_remove_inverted :
    modifyWithModFile { remove := some [c1item] } ⟨[⟨[c1entM, c1entN]⟩]⟩ =
      .ok (⟨[⟨[c1entM]⟩]⟩, ["X (type=constant) is removed"]) ∧
    infoModule c1entM = some ("m".toList) ∧
    infoModule c1entN = some ("n".toList) ∧
    c1item.module = some (some ("m".toList)) := ⟨rfl, rfl, rfl, rfl⟩

def c6appItem : PatchItem :=
  { type_ := some "constant", name := some ("X".toList),
    module := some (some ("m".toList)), description := some ("d".toList) }

def c6entNoMod : Info :=
  .var { type_ := "constant", name := some ("X".toList), module := none }

def c6rmNoMod : PatchItem := { type_ := some "constant", name := some ("X".toList) }

def c6appNullMod : PatchItem :=
  { type_ := some "constant", name := some ("X".toList), module := some none,
    description := some ("d".toList) }

/-- **C6 (code bug).**  The four operations are indeed processed in the
order remove, new, append, update (as the second conjunct shows for the
absent-module case, where the removal works and the later append finds
nothing).  But for a key with a module value, the document
`remove [(constant, X, m)]; append [(constant, X, m)]` leaves the entity
**present** (and appended-to): the inverted remove matching never deletes
the matching entity, so the claim's consequence fails. -/
theorem c6_remove_then_append :
    modifyWithModFile { remove := some [c1item], append := some [c6appItem] }
        ⟨[⟨[c1entM]⟩]⟩ =
      .ok (⟨[⟨[.var { type_ := "constant", name := some ("X".toList),
                      module := some ("m".toList),
                      description := some ("d".toList) }]⟩]⟩, []) ∧
    modifyWithModFile { remove := some [c6rmNoMod], append := some [c6appNullMod] }
        ⟨[⟨[c6entNoMod]⟩]⟩ =
      .ok (⟨[⟨[]⟩]⟩, ["X (type=constant) is removed"]) := ⟨rfl, rfl⟩

/-! ### Claim C10: every "new" key appends exactly one section -/

theorem processRemoveItem_length (item : PatchItem) (m : AnalysisResult) :
    (processRemoveItem item m).1.section_info.length = m.section_info.length := by
  unfold processRemoveItem
  simp

theorem foldl_removeFold_length (items : List PatchItem) :
    ∀ st : AnalysisResult × List String,
      ((items.foldl removeFold st).1).section_info.length = st.1.section_info.length := by
  induction items with
  | nil => intro st; rfl
  | cons item rest ih =>
    intro st
    rw [List.foldl_cons, ih]
    unfold removeFold
    exact processRemoveItem_length item st.1

theorem stageRemove_length (mf : ModFile) (m : AnalysisResult) :
    (stageRemove mf m).1.section_info.length = m.section_info.length := by
  unfold stageRemove
  cases mf.remove with
  | none => rfl
  | some items => exact foldl_removeFold_length items (m, [])

theorem editFold_length (m : AnalysisResult) (item : PatchItem) :
    (editFold m item).section_info.length = m.section_info.length := by
  unfold editFold
  simp

theorem processEdit_length (items : List PatchItem) :
    ∀ m : AnalysisResult,
      (processEdit items m).section_info.length = m.section_info.length := by
  unfold processEdit
  induction items with
  | nil => intro m; rfl
  | cons item rest ih =>
    intro m
    rw [List.foldl_cons, ih, editFold_length]

theorem stageAppend_length (mf : ModFile) (m : AnalysisResult) :
    (stageAppend mf m).section_info.length = m.section_info.length := by
  unfold stageAppend
  cases mf.append with
  | none => rfl
  | some items => exact processEdit_length items m

theorem stageUpdate_length (mf : ModFile) (m : AnalysisResult) :
    (stageUpdate mf m).section_info.length = m.section_info.length := by
  unfold stageUpdate
  cases mf.update with
  | none => rfl
  | some items => exact processEdit_length items m

theorem processNew_sections (items : List PatchItem) (m m' : AnalysisResult)
    (logs : List String) (h : processNew items m = .ok (m', logs)) :
    ∃ sec : SectionInfo, m'.section_info = m.section_info ++ [sec] := by
  unfold processNew at h
  cases hpn : processNewItems m items [] [] with
  | error e =>
    rw [hpn] at h
    cases h
  | ok p =>
    rw [hpn] at h
    simp only [bind, Except.bind, Except.ok.injEq, Prod.mk.injEq] at h
    exact ⟨⟨p.1⟩, by rw [← h.1]⟩

/-- **C10.**  Applying any override document whose "new" key is present
appends exactly one section to the model: the remove, append and update
blocks never change the number of sections, and the new block appends its
accumulated section unconditionally — even when the "new" array is empty
or only holds duplicates. -/
theorem c10_new_appends_one_section :
    ∀ (mf : ModFile) (items : List PatchItem) (m m' : AnalysisResult) (logs : List String),
      mf.new = some items →
      modifyWithModFile mf m = .ok (m', logs) →
      m'.section_info.length = m.section_info.length + 1 := by
  intro mf items m m' logs hnew h
  unfold modifyWithModFile at h
  cases hsn : stageNew mf (stageRemove mf m).1 with
  | error e =>
    rw [hsn] at h
    cases h
  | ok r2 =>
    rw [hsn] at h
    simp only [Except.ok.injEq, Prod.mk.injEq] at h
    have hm' : m' = stageUpdate mf (stageAppend mf r2.1) := h.1.symm
    unfold stageNew at hsn
    rw [hnew] at hsn
    obtain ⟨sec, hsec⟩ := processNew_sections items (stageRemove mf m).1 r2.1 r2.2 hsn
    rw [hm', stageUpdate_length, stageAppend_length, hsec]
    simp [stageRemove_length]

/-- **C10, witness**: a document whose "new" array is empty still appends
one (empty) section. -/
theorem c10_new_appends_one_section_witness :
    (⟨[⟨[]⟩]⟩ : AnalysisResult).section_info.length =
      (⟨[]⟩ : AnalysisResult).section_info.length + 1 :=
  c10_new_appends_one_section { new := some [] } [] ⟨[]⟩ ⟨[⟨[]⟩]⟩ [] rfl rfl

/-! ### Claim C5: applying a "new" item twice adds exactly one entity -/

theorem modify_new_only (items : List PatchItem) (m : AnalysisResult) :
    modifyWithModFile { new := some items } m = processNew items m := by
  show (match processNew items m with
        | .error e => (.error e : Except String (AnalysisResult × List String))
        | .ok r2 => .ok (r2.1, ([] : List String) ++ r2.2)) = processNew items m
  cases hpn : processNew items m with
  | error e => rfl
  | ok r2 => rfl

theorem processNew_single_fresh (item : PatchItem) (m : AnalysisResult) (t : String)
    (e : Info) (hhe : hasEntry item m = false) (htype : item.type_ = some t)
    (hinfo : newInfoOfItem t item = .ok e) :
    processNew [item] m = .ok (⟨m.section_info ++ [⟨[e]⟩]⟩, []) := by
  have h1 : processNewItems m [item] [] [] = .ok ([e], []) := by
    unfold processNewItems
    rw [hhe]
    simp only [Bool.false_eq_true, if_false]
    rw [htype]
    simp only
    rw [hinfo]
    simp only [bind, Except.bind]
    unfold processNewItems
    rfl
  unfold processNew
  rw [h1]
  simp [bind, Except.bind]

theorem processNew_single_dup (item : PatchItem) (m : AnalysisResult) (n : List Char)
    (hhe : hasEntry item m = true) (hname : item.name = some n) :
    processNew [item] m =
      .ok (⟨m.section_info ++ [⟨[]⟩]⟩, [String.mk n ++ " is already registered"]) := by
  have h1 : processNewItems m [item] [] [] =
      .ok ([], [String.mk n ++ " is already registered"]) := by
    unfold processNewItems
    rw [hhe]
    simp only [if_true]
    rw [hname]
    simp only
    unfold processNewItems
    rfl
  unfold processNew
  rw [h1]
  simp [bind, Except.bind]

/-- **C5.**  For a "new" item carrying all three key fields whose key
matches nothing in the model, applying the document adds exactly one
entity in a newly appended section; applying it again finds the match,
adds nothing (only another empty section) and logs the duplicate warning
`"<name> is already registered"`. -/
theorem c5_new_twice_adds_one :
    ∀ (t : String) (n : List Char) (mv : Option (List Char)) (m : AnalysisResult),
      (t = "constant" ∨ t = "function" ∨ t = "class") →
      (∀ s ∈ m.section_info, ∀ i ∈ s.info_list,
          newMatch { type_ := some t, name := some n, module := some mv } i = false) →
      ∃ e : Info,
        modifyWithModFile
            { new := some [{ type_ := some t, name := some n, module := some mv }] } m =
          .ok (⟨m.section_info ++ [⟨[e]⟩]⟩, []) ∧
        modifyWithModFile
            { new := some [{ type_ := some t, name := some n, module := some mv }] }
            ⟨m.section_info ++ [⟨[e]⟩]⟩ =
          .ok (⟨(m.section_info ++ [⟨[e]⟩]) ++ [⟨[]⟩]⟩,
               [String.mk n ++ " is already registered"]) ∧
        newMatch { type_ := some t, name := some n, module := some mv } e = true ∧
        entityCount ⟨(m.section_info ++ [⟨[e]⟩]) ++ [⟨[]⟩]⟩ = entityCount m + 1 := by
  intro t n mv m htype hno
  have hhe1 : hasEntry { type_ := some t, name := some n, module := some mv } m = false := by
    unfold hasEntry
    rw [List.any_eq_false]
    intro s hs
    rw [Bool.not_eq_true, List.any_eq_false]
    intro i hi
    rw [Bool.not_eq_true]
    exact hno s hs i hi
  have key : ∀ e : Info,
      newInfoOfItem t { type_ := some t, name := some n, module := some mv } = .ok e →
      newMatch { type_ := some t, name := some n, module := some mv } e = true →
      ∃ e : Info,
        modifyWithModFile
            { new := some [{ type_ := some t, name := some n, module := some mv }] } m =
          .ok (⟨m.section_info ++ [⟨[e]⟩]⟩, []) ∧
        modifyWithModFile
            { new := some [{ type_ := some t, name := some n, module := some mv }] }
            ⟨m.section_info ++ [⟨[e]⟩]⟩ =
          .ok (⟨(m.section_info ++ [⟨[e]⟩]) ++ [⟨[]⟩]⟩,
               [String.mk n ++ " is already registered"]) ∧
        newMatch { type_ := some t, name := some n, module := some mv } e = true ∧
        entityCount ⟨(m.section_info ++ [⟨[e]⟩]) ++ [⟨[]⟩]⟩ = entityCount m + 1 := by
    intro e hinfo hmatch
    have h1 := processNew_single_fresh _ m t e hhe1 rfl hinfo
    have hhe2 : hasEntry { type_ := some t, name := some n, module := some mv }
        ⟨m.section_info ++ [⟨[e]⟩]⟩ = true := by
      unfold hasEntry
      rw [List.any_eq_true]
      refine ⟨⟨[e]⟩, by simp, ?_⟩
      rw [List.any_eq_true]
      exact ⟨e, by simp, hmatch⟩
    have h2 := processNew_single_dup
      { type_ := some t, name := some n, module := some mv }
      ⟨m.section_info ++ [⟨[e]⟩]⟩ n hhe2 rfl
    refine ⟨e, ?_, ?_, hmatch, ?_⟩
    · rw [modify_new_only, h1]
    · rw [modify_new_only, h2]
    · simp [entityCount]
  rcases htype with ht | ht | ht <;> subst ht
  · exact key (.var (variableFromDictNew "constant"
        { type_ := some "constant", name := some n, module := some mv })) rfl
      (by simp [newMatch, infoType, infoName, infoModule, variableFromDictNew, Option.join])
  · exact key (.func (functionFromDictNew "function"
        { type_ := some "function", name := some n, module := some mv })) rfl
      (by simp [newMatch, infoType, infoName, infoModule, functionFromDictNew, Option.join])
  · exact key (.cls (classFromDictNew
        { type_ := some "class", name := some n, module := some mv })) rfl
      (by simp [newMatch, infoType, infoName, infoModule, classFromDictNew, Option.join])

/-- **C5, witness**: a concrete constant item applied twice to the empty
model. -/
theorem c5_new_twice_adds_one_witness :
    ∃ e : Info,
      modifyWithModFile
          { new := some [{ type_ := some "constant", name := some ("X".toList),
                           module := some (some ("m".toList)) }] }
          (⟨[]⟩ : AnalysisResult) =
        .ok (⟨[] ++ [⟨[e]⟩]⟩, []) ∧
      modifyWithModFile
          { new := some [{ type_ := some "constant", name := some ("X".toList),
                           module := some (some ("m".toList)) }] }
          ⟨[] ++ [⟨[e]⟩]⟩ =
        .ok (⟨([] ++ [⟨[e]⟩]) ++ [⟨[]⟩]⟩,
             [String.mk ("X".toList) ++ " is already registered"]) ∧
      newMatch { type_ := some "constant", name := some ("X".toList),
                 module := some (some ("m".toList)) } e = true ∧
      entityCount ⟨([] ++ [⟨[e]⟩]) ++ [⟨[]⟩]⟩ =
        entityCount (⟨[]⟩ : AnalysisResult) + 1 :=
  c5_new_twice_adds_one "constant" ("X".toList) (some ("m".toList)) ⟨[]⟩
    (Or.inl rfl) (by simp)

end FakeBpy
